import Mathlib

/-!
Verification of the Financial Fraud MAS core (src/Financial Fraud MAS/agents.py
and tools.py): a shallow embedding of the deterministic rule-based fraud
engine, the per-account risk aggregator, the supervisor deduplication and
flatten passes, the ingestion loop, and the error-sentinel guards of the
analysis/scoring tools.

Modelling conventions:
* A Python dict field that may be absent is `Option`-valued; `txn.get(k)`
  on an absent key yields `none`, which models Python `None` (note that in
  the fraud engine two absent fields compare equal, exactly as
  `None == None` in Python).
* Monetary amounts and risk scores are rationals. The contributions
  0.7 / 0.8 / 0.6 are used only additively and compared with 0 and 2000,
  so exact rational arithmetic models the Python floats faithfully
  (every reachable sum times 100 is an integer, so no rounding noise can
  arise). Python `round(x, 2)` is modelled by `pyRound2`; Python rounds
  half-to-even while `pyRound2` rounds half-up, but the two agree on every
  value whose hundredfold is an integer, which covers all reachable scores.
-/

namespace FraudMAS

/-- A transaction record as consumed by `fraud_detection_agent`
(agents.py, lines 118-163).  Fields are the keys the code reads via
`txn.get(...)`; an absent key is `none`. -/
structure Txn where
  transaction_id : Option String
  payment_id : Option String
  account_id : Option String
  amount : Option ℚ
  date : Option String
  country : Option String
  ip_address : Option String
deriving DecidableEq

/-- The `known_locations` table (agents.py, lines 145-146). -/
def knownLocations : List (String × List String) :=
  [("AC001", ["New York"]), ("AC002", ["Chicago", "Los Angeles"]),
   ("AC003", ["Miami", "Lagos"]), ("AC004", ["New York"])]

/-- Dictionary lookup in `known_locations`. -/
def knownLoc (a : String) : Option (List String) := knownLocations.lookup a

/-- Rule 1 test (agents.py, line 128): `txn.get("amount", 0) > 2000`. -/
def highAmountHit (txn : Txn) : Bool :=
  decide ((2000 : ℚ) < txn.amount.getD 0)

/-- Rule 2 test (agents.py, lines 133-140): the `duplicates` list
comprehension is nonempty, i.e. some record of the full set shares
`account_id`, `date` and `amount` with `txn` but has a different
`transaction_id`. -/
def dupHit (txns : List Txn) (txn : Txn) : Bool :=
  txns.any fun t =>
    decide (t.account_id = txn.account_id) && decide (t.date = txn.date) &&
    decide (t.amount = txn.amount) &&
    decide (t.transaction_id ≠ txn.transaction_id)

/-- Rule 3 test (agents.py, lines 147-150):
`if txn.get("country") and txn.get("account_id") in known_locations:`
(a missing or empty `country` is falsy and skips the rule) followed by
`if txn["country"] not in known_locations[txn["account_id"]]`. -/
def foreignHit (txn : Txn) : Bool :=
  match txn.country, txn.account_id with
  | some c, some a =>
    if c = "" then false
    else
      match knownLoc a with
      | some locs => decide (c ∉ locs)
      | none => false
  | _, _ => false

/-- The accumulated `risk_score` of one record (agents.py, lines 124-150):
starts at 0, `+0.7` for the high-amount rule, `+0.8` for the same-day
duplicate rule, `+0.6` for the foreign-location rule, in that order. -/
def score (txns : List Txn) (txn : Txn) : ℚ :=
  (if highAmountHit txn then 7/10 else 0) +
  (if dupHit txns txn then 8/10 else 0) +
  (if foreignHit txn then 6/10 else 0)

/-- The accumulated `reasons` list of one record (agents.py, lines
125-150), appended in rule order. -/
def reasons (txns : List Txn) (txn : Txn) : List String :=
  (if highAmountHit txn then ["High amount transaction"] else []) ++
  (if dupHit txns txn then ["Duplicate transaction same day"] else []) ++
  (if foreignHit txn then ["Foreign location detected"] else [])

/-- Python `round(x, 2)` (agents.py, line 158).  Rounds to two decimal
places; half-up instead of Python's half-to-even, which agrees on every
value `q` with `q * 100` integral — in particular on every reachable
score (a sum over subsets of 0.7, 0.8, 0.6). -/
def pyRound2 (q : ℚ) : ℚ := (⌊q * 100 + 1/2⌋ : ℚ) / 100

/-- A flagged record as built by the dict literal at agents.py, lines
153-160. -/
structure FlaggedRec where
  transaction_id : Option String
  account_id : Option String
  amount : Option ℚ
  date : Option String
  risk_score : ℚ
  reasons : List String
deriving DecidableEq

/-- The flagged record appended for `txn` (agents.py, lines 153-160). -/
def annotate (txns : List Txn) (txn : Txn) : FlaggedRec :=
  { transaction_id := txn.transaction_id
    account_id := txn.account_id
    amount := txn.amount
    date := txn.date
    risk_score := pyRound2 (score txns txn)
    reasons := reasons txns txn }

/-- The fraud rule engine (agents.py, lines 118-163): one pass over the
record list, appending the annotated record whenever its score is
strictly positive. -/
def fraud_detection (txns : List Txn) : List FlaggedRec :=
  txns.filterMap fun txn =>
    if 0 < score txns txn then some (annotate txns txn) else none

/-- The fraud-detection graph node's view of the `transaction_data`
channel (agents.py, line 120): the node reads
`state.get("transaction_data", {}).get("data", [])`, so it only looks
for a `data` key and defaults to the empty list.  An `error` key — the
ComputationError sentinel shape of section 7 of the spec — may also be
present but is never inspected by this node. -/
structure TransactionData where
  data : Option (List Txn)
  error : Option String
deriving DecidableEq

/-- The fraud-detection graph node (agents.py, lines 118-163). -/
def fraud_detection_agent (td : TransactionData) : List FlaggedRec :=
  fraud_detection (td.data.getD [])

/-! ## Risk aggregator (agents.py, lines 166-181) -/

/-- One per-account summary, as in the list-comprehension output
`{"account_id": k, **v}` of agents.py, line 180. -/
structure Summary where
  account_id : Option String
  total_flagged : ℕ
  transactions : List FlaggedRec
deriving DecidableEq

/-- The running `risk_report` dict: Python dicts preserve insertion
order, so it is an association list whose keys are the `account_id`
values (`txn["account_id"]` may be `None`, hence `Option String`). -/
abbrev Report : Type := List (Option String × ℕ × List FlaggedRec)

/-- One loop iteration of agents.py, lines 172-177: update the existing
entry in place, or append a fresh `{"total_flagged": 1, ...}` entry at
the end (a new key enters a Python dict in insertion position). -/
def updateReport (txn : FlaggedRec) : Report → Report
  | [] => [(txn.account_id, 1, [txn])]
  | e :: rest =>
    if e.1 = txn.account_id then (e.1, e.2.1 + 1, e.2.2 ++ [txn]) :: rest
    else e :: updateReport txn rest

/-- The risk-analysis node (agents.py, lines 166-181): fold the flagged
records into the report dict, then convert to a list of summaries. -/
def risk_analysis (fraud : List FlaggedRec) : List Summary :=
  (fraud.foldl (fun rep txn => updateReport txn rep) ([] : Report)).map
    fun e => { account_id := e.1, total_flagged := e.2.1, transactions := e.2.2 }

/-- The distinct `account_id` values of a flagged-record list in
first-seen order, skipping those already in `seen`; at `seen = []` this
is the spec's "first-seen order of accounts" (spec section 4.4). -/
def firstSeenAccounts (seen : List (Option String)) : List FlaggedRec → List (Option String)
  | [] => []
  | t :: rest =>
    if t.account_id ∈ seen then firstSeenAccounts seen rest
    else t.account_id :: firstSeenAccounts (t.account_id :: seen) rest

/-- The key column of the report dict. -/
def reportKeys (r : Report) : List (Option String) := r.map fun e => e.1

/-- The flagged records of one account, in original input order. -/
def acctFilter (a : Option String) (l : List FlaggedRec) : List FlaggedRec :=
  l.filter fun r => decide (r.account_id = a)

/-- Specification helper: how an existing report entry absorbs a whole
record list. -/
def mergeEntry (l : List FlaggedRec) (e : Option String × ℕ × List FlaggedRec) :
    Option String × ℕ × List FlaggedRec :=
  (e.1, e.2.1 + (acctFilter e.1 l).length, e.2.2 ++ acctFilter e.1 l)

/-- Specification helper: the report entry a fresh account receives. -/
def groupEntry (l : List FlaggedRec) (a : Option String) :
    Option String × ℕ × List FlaggedRec :=
  (a, (acctFilter a l).length, acctFilter a l)

/-- The Risk Aggregator output as the spec words it (section 4.4): one
summary per distinct account in first-seen order, `total_flagged` the
count of that account's flagged records, `transactions` those records
in original input order. -/
def riskSummariesSpec (fraud : List FlaggedRec) : List Summary :=
  (firstSeenAccounts [] fraud).map fun a =>
    { account_id := a
      total_flagged := (fraud.filter fun r => decide (r.account_id = a)).length
      transactions := fraud.filter fun r => decide (r.account_id = a) }

/-! ## Supervisor deduplication (agents.py, lines 187-198)

The supervisor iterates over arbitrary flagged-record dicts, so here a
field value is a `PyVal` (a Python scalar: `None`, a string, or a
number) and a possibly-absent key is `Option PyVal`. -/

/-- A Python scalar value stored in a flagged-record dict. -/
inductive PyVal where
  | pnone
  | pstr (s : String)
  | pnum (q : ℚ)
deriving DecidableEq

/-- Python truthiness of a scalar: `None`, `""` and `0` are falsy. -/
def truthy : PyVal → Bool
  | .pnone => false
  | .pstr s => decide (s ≠ "")
  | .pnum q => decide (q ≠ 0)

/-- Python `str()` of a scalar, used by the composite f-string key.
Numeric rendering stands in deterministically for Python's float
`str()`; the dedup proofs depend only on it being a function of the
value. -/
def pyStr : PyVal → String
  | .pnone => "None"
  | .pstr s => s
  | .pnum q => toString q

/-- Python `a or b`: `a` if truthy, else `b`. -/
def pyOr (a b : PyVal) : PyVal := if truthy a then a else b

/-- A flagged-record dict as the supervisor sees it.  `transaction_id`
and `payment_id` may be absent (`tx.get` / `"transaction_id" not in tx`
distinguish absence from a stored `None`); `account_id`, `date` and
`amount` are indexed directly (`tx["account_id"]` etc.), so the model
takes them as present. -/
structure SupRec where
  transaction_id : Option PyVal
  payment_id : Option PyVal
  account_id : PyVal
  date : PyVal
  amount : PyVal
deriving DecidableEq

/-- Python `tx.get(k)`: the stored value, or `None` when the key is absent. -/
def pyGetV (o : Option PyVal) : PyVal := o.getD .pnone

/-- The composite fallback key (agents.py, line 191): the f-string
joining `account_id`, `date` and `amount` with underscores. -/
def compositeKey (tx : SupRec) : String :=
  pyStr tx.account_id ++ "_" ++ pyStr tx.date ++ "_" ++ pyStr tx.amount

/-- The dedup key (agents.py, line 191):
`tx.get("transaction_id") or tx.get("payment_id") or composite`. -/
def dedupKey (tx : SupRec) : PyVal :=
  pyOr (pyGetV tx.transaction_id)
    (pyOr (pyGetV tx.payment_id) (.pstr (compositeKey tx)))

/-- The backfill (agents.py, lines 194-195): a kept record lacking the
`transaction_id` key receives `tx.get("payment_id", tx_key)` — the
stored `payment_id` value if that key is present (even if falsy), else
the computed dedup key. -/
def backfillTx (tx : SupRec) (key : PyVal) : SupRec :=
  if tx.transaction_id = none
  then { tx with transaction_id := some (tx.payment_id.getD key) }
  else tx

/-- The dedup loop (agents.py, lines 188-196) with its `seen` set. -/
def dedupAux (seen : List PyVal) : List SupRec → List SupRec
  | [] => []
  | tx :: rest =>
    let key := dedupKey tx
    if key ∈ seen then dedupAux seen rest
    else backfillTx tx key :: dedupAux (key :: seen) rest

/-- The supervisor's deduplication pass (agents.py, lines 187-198). -/
def supervisorDedup (l : List SupRec) : List SupRec := dedupAux [] l

/-! ## Supervisor flatten (agents.py, lines 200-207) -/

/-- A Python value as stored under the `analysis` key: scalars, lists
and string-keyed dicts. -/
inductive PyData where
  | pnone
  | pstr (s : String)
  | pnum (q : ℚ)
  | plist (items : List PyData)
  | pdict (entries : List (String × PyData))

/-- First value stored under a key in a dict's entry list (Python dict
keys are unique; a duplicated key in the model reads the first). -/
def lookupEntry (k : String) : List (String × PyData) → Option PyData
  | [] => none
  | e :: rest => if e.1 = k then some e.2 else lookupEntry k rest

/-- The value `analysis["data"]` when `isinstance(analysis, dict) and "data" in
analysis` holds, else `none` — the loop guard of agents.py, line 204. -/
def dataField : PyData → Option PyData
  | .pdict entries => lookupEntry "data" entries
  | _ => none

theorem lookupEntry_sizeOf (k : String) :
    ∀ (es : List (String × PyData)) (v : PyData),
      lookupEntry k es = some v → sizeOf v < 1 + sizeOf es
  | [], _, h => by simp [lookupEntry] at h
  | e :: rest, v, h => by
    by_cases hk : e.1 = k
    · simp [lookupEntry, hk] at h
      subst h
      cases e with
      | mk k' v' => simp +arith
    · simp [lookupEntry, hk] at h
      have h' := lookupEntry_sizeOf k rest v h
      cases e with
      | mk k' v' =>
        simp +arith
        omega

/-- The supervisor's flatten loop (agents.py, lines 204-205):
`while isinstance(analysis, dict) and "data" in analysis: analysis =
analysis["data"]`.  Total by well-founded recursion on the size of the
value, which witnesses the termination half of the flatten claim. -/
def flattenAnalysis (a : PyData) : PyData :=
  match h : dataField a with
  | some v => flattenAnalysis v
  | none => a
termination_by sizeOf a
decreasing_by
  cases a with
  | pdict entries =>
    have h' := lookupEntry_sizeOf "data" entries v h
    simp
    omega
  | pnone => simp [dataField] at h
  | pstr s => simp [dataField] at h
  | pnum q => simp [dataField] at h
  | plist items => simp [dataField] at h

/-! ## Ingestion (agents.py, lines 77-94) -/

/-- The dict returned by a source collaborator (`load_csv`, `fetch_api`,
`query_database` in tools.py): an `error` key when the source failed,
and a `data` key holding the record rows (`response.get("data", [])`
defaults an absent `data` key to the empty list). -/
structure SourceResult where
  error : Option String
  data : Option (List Txn)

/-- Source dispatch (agents.py, lines 81-86): `.csv` suffix goes to
`load_csv`, `http` prefix to `fetch_api`, anything else to
`query_database`.  The three collaborators are external I/O (spec
section 6) and are parameters of the model. -/
def sourceResponse (loadCsv fetchApi queryDb : String → SourceResult)
    (source : String) : SourceResult :=
  if source.endsWith ".csv" then loadCsv source
  else if source.startsWith "http" then fetchApi source
  else queryDb source

/-- One iteration of the ingestion loop (agents.py, lines 88-91): a
response carrying an `error` key is logged and skipped, otherwise its
`data` rows are appended to `all_data`. -/
def ingestStep (loadCsv fetchApi queryDb : String → SourceResult)
    (all : List Txn) (source : String) : List Txn :=
  let response := sourceResponse loadCsv fetchApi queryDb source
  if response.error.isSome then all
  else all ++ response.data.getD []

/-- The ingestion node (agents.py, lines 77-94): walk the source list in
order, accumulating the successful sources' rows. -/
def ingestion_agent (loadCsv fetchApi queryDb : String → SourceResult)
    (sources : List String) : List Txn :=
  sources.foldl (ingestStep loadCsv fetchApi queryDb) []

/-! ## Tool sentinel guards (tools.py)

Each analysis/scoring tool opens with the guard
`if "error" in data: return data` before its try-block
(tools.py, lines 168, 226, 273, 315, 348, 384, 427, 488). -/

/-- The dict argument of an analysis/scoring tool: a possible `error`
key (the ComputationError sentinel) and a possible `data` key holding
the rows. -/
structure ToolInput where
  error : Option String
  data : Option (List Txn)
deriving DecidableEq

/-- What a tool returns: the input dict forwarded unchanged (sentinel
branch), the `{"error": ...}` dict of its except-branch, or a computed
result. -/
inductive ToolOutput (α : Type) where
  | forwarded (input : ToolInput)
  | failed (msg : String)
  | results (val : α)
deriving DecidableEq

/-- The guard shared by every tool body:
`if "error" in data: return data` else run the body.  The pandas /
sklearn / networkx bodies are external numeric code (out of scope, spec
section 1); each concrete tool instantiates `body`. -/
def toolGuard {α : Type} (body : ToolInput → ToolOutput α)
    (data : ToolInput) : ToolOutput α :=
  if data.error.isSome then .forwarded data else body data

/-- The per-column statistics of `statistical_summary` for the `amount`
column (tools.py, lines 179-187), over exact rationals.  The
pandas-specific `description`, `median` and `standard_deviation`
outputs are floating-point presentation detail and are not modelled;
the mean of an empty column, `NaN` in pandas, is the junk value `0`
here — neither is inspected by any claim. -/
structure AmountStats where
  count : ℕ
  sum : ℚ
  mean : ℚ
  min : Option ℚ
  max : Option ℚ
deriving DecidableEq

/-- The try-block of `statistical_summary` (tools.py, lines 171-192):
build the frame from `data["data"]` (a missing `data` key raises and is
caught by the except-branch) and compute column statistics. -/
def statisticalBody (input : ToolInput) : ToolOutput AmountStats :=
  match input.data with
  | none => .failed "Issue reading DataFrame object"
  | some rows =>
    let amts := rows.filterMap fun r => r.amount
    .results
      { count := amts.length
        sum := amts.sum
        mean := amts.sum / amts.length
        min := amts.min?
        max := amts.max? }

/-- The tool `statistical_summary` (tools.py, lines 134-192): the sentinel guard
at line 168 followed by the statistics body. -/
def statistical_summary (input : ToolInput) : ToolOutput AmountStats :=
  toolGuard statisticalBody input

/-! ## The flagged-record dict literal (agents.py, lines 153-160) -/

/-- Python `txn.get(k)` for a string-valued field, as a Python scalar. -/
def optStrVal : Option String → PyVal
  | none => .pnone
  | some s => .pstr s

/-- Python `txn.get("amount")`, as a Python scalar. -/
def optNumVal : Option ℚ → PyVal
  | none => .pnone
  | some q => .pnum q

/-- The flagged-record dict exactly as the literal at agents.py, lines
153-160 builds it: six keys, in source order. -/
def flagDict (r : FlaggedRec) : List (String × PyData) :=
  [("transaction_id", match r.transaction_id with
                      | none => .pnone
                      | some s => .pstr s),
   ("account_id", match r.account_id with
                  | none => .pnone
                  | some s => .pstr s),
   ("amount", match r.amount with
              | none => .pnone
              | some q => .pnum q),
   ("date", match r.date with
            | none => .pnone
            | some s => .pstr s),
   ("risk_score", .pnum r.risk_score),
   ("reasons", .plist (r.reasons.map .pstr))]

/-- How a fraud-engine flagged record enters the supervisor's dedup
pass: the `transaction_id` key is always present (holding `None` when
the source field was missing), while `payment_id`, `country` and
`ip_address` are simply not keys of the dict literal. -/
def flaggedToSup (r : FlaggedRec) : SupRec :=
  { transaction_id := some (optStrVal r.transaction_id)
    payment_id := none
    account_id := optStrVal r.account_id
    date := optStrVal r.date
    amount := optNumVal r.amount }

/-! ## Helper lemmas -/

/-- The `round(risk_score, 2)` call is the identity on every reachable
score: each of the eight possible rule-contribution sums times 100 is an
integer. -/
theorem pyRound2_score (txns : List Txn) (txn : Txn) :
    pyRound2 (score txns txn) = score txns txn := by
  unfold score
  cases highAmountHit txn <;> cases dupHit txns txn <;> cases foreignHit txn <;>
    simp [pyRound2] <;> norm_num

/-- A record of the input with a positive score appears, annotated, in
the engine's output. -/
theorem annotate_mem_fraud_detection (txns : List Txn) (txn : Txn)
    (hmem : txn ∈ txns) (hpos : 0 < score txns txn) :
    annotate txns txn ∈ fraud_detection txns := by
  rw [fraud_detection, List.mem_filterMap]
  exact ⟨txn, hmem, by rw [if_pos hpos]⟩

/-- A record on which the high-amount rule fires has positive score. -/
theorem score_pos_of_high (txns : List Txn) (txn : Txn)
    (h : highAmountHit txn = true) : 0 < score txns txn := by
  cases h2 : dupHit txns txn <;> cases h3 : foreignHit txn <;>
    simp [score, h, h2, h3] <;> norm_num

/-- A record on which the duplicate rule fires has positive score. -/
theorem score_pos_of_dup (txns : List Txn) (txn : Txn)
    (h : dupHit txns txn = true) : 0 < score txns txn := by
  cases h1 : highAmountHit txn <;> cases h3 : foreignHit txn <;>
    simp [score, h, h1, h3] <;> norm_num

/-- A record on which the foreign-location rule fires has positive
score. -/
theorem score_pos_of_foreign (txns : List Txn) (txn : Txn)
    (h : foreignHit txn = true) : 0 < score txns txn := by
  cases h1 : highAmountHit txn <;> cases h2 : dupHit txns txn <;>
    simp [score, h, h1, h2] <;> norm_num

/-! ## Claim theorems -/

/-- C1: in every transaction set, a record with `amount > 2000` on
which neither the same-day-duplicate rule nor the foreign-location
rule fires appears in the fraud engine's flagged output annotated with
`risk_score == 0.7` and `reasons == ["High amount transaction"]`. -/
theorem c1_high_amount_only (txns : List Txn) (txn : Txn)
    (hmem : txn ∈ txns)
    (hamt : (2000 : ℚ) < txn.amount.getD 0)
    (hdup : dupHit txns txn = false)
    (hfor : foreignHit txn = false) :
    annotate txns txn ∈ fraud_detection txns ∧
    (annotate txns txn).risk_score = 7/10 ∧
    (annotate txns txn).reasons = ["High amount transaction"] := by
  have hh : highAmountHit txn = true := by
    simpa [highAmountHit] using hamt
  have hs : score txns txn = 7/10 := by simp [score, hh, hdup, hfor]
  refine ⟨annotate_mem_fraud_detection txns txn hmem (by rw [hs]; norm_num), ?_, ?_⟩
  · show pyRound2 (score txns txn) = 7/10
    rw [hs]; norm_num [pyRound2]
  · show reasons txns txn = ["High amount transaction"]
    simp [reasons, hh, hdup, hfor]

def w1txn : Txn :=
  ⟨some "T1", none, some "AC001", some 2500, some "2024-01-01", some "New York", none⟩

theorem c1_high_amount_only_witness :
    (w1txn ∈ [w1txn] ∧ (2000 : ℚ) < w1txn.amount.getD 0 ∧
     dupHit [w1txn] w1txn = false ∧ foreignHit w1txn = false) ∧
    (annotate [w1txn] w1txn ∈ fraud_detection [w1txn] ∧
     (annotate [w1txn] w1txn).risk_score = 7/10 ∧
     (annotate [w1txn] w1txn).reasons = ["High amount transaction"]) :=
  ⟨⟨by decide, by decide, by decide, by decide⟩,
   c1_high_amount_only [w1txn] w1txn (by decide) (by decide) (by decide) (by decide)⟩

/-- C2: for every pair of records of the input sharing `account_id`,
`date` and `amount` but with distinct `transaction_id` values, the
same-day-duplicate rule fires on both: each score is its other rule
contributions plus `0.8`, each reasons list contains
"Duplicate transaction same day", and both annotated records appear in
the flagged output — the rule is evaluated pairwise over the full
record set, not just adjacent records. -/
theorem c2_same_day_duplicate (txns : List Txn) (r1 r2 : Txn)
    (hm1 : r1 ∈ txns) (hm2 : r2 ∈ txns)
    (hacct : r1.account_id = r2.account_id)
    (hdate : r1.date = r2.date)
    (hamt : r1.amount = r2.amount)
    (hid : r1.transaction_id ≠ r2.transaction_id) :
    dupHit txns r1 = true ∧ dupHit txns r2 = true ∧
    score txns r1 =
      (if highAmountHit r1 then 7/10 else 0) + 8/10 +
      (if foreignHit r1 then 6/10 else 0) ∧
    score txns r2 =
      (if highAmountHit r2 then 7/10 else 0) + 8/10 +
      (if foreignHit r2 then 6/10 else 0) ∧
    "Duplicate transaction same day" ∈ reasons txns r1 ∧
    "Duplicate transaction same day" ∈ reasons txns r2 ∧
    annotate txns r1 ∈ fraud_detection txns ∧
    annotate txns r2 ∈ fraud_detection txns := by
  have hid' : r2.transaction_id ≠ r1.transaction_id := fun h => hid h.symm
  have hd1 : dupHit txns r1 = true := by
    rw [dupHit, List.any_eq_true]
    exact ⟨r2, hm2, by simp [hacct.symm, hdate.symm, hamt.symm, hid']⟩
  have hd2 : dupHit txns r2 = true := by
    rw [dupHit, List.any_eq_true]
    exact ⟨r1, hm1, by simp [hacct, hdate, hamt, hid]⟩
  refine ⟨hd1, hd2, by simp [score, hd1], by simp [score, hd2],
    by simp [reasons, hd1], by simp [reasons, hd2],
    annotate_mem_fraud_detection txns r1 hm1 (score_pos_of_dup txns r1 hd1),
    annotate_mem_fraud_detection txns r2 hm2 (score_pos_of_dup txns r2 hd2)⟩

def w2a : Txn := ⟨some "T1", none, some "AC001", some 500, some "2024-02-02", none, none⟩

def w2b : Txn := ⟨some "T2", none, some "AC001", some 500, some "2024-02-02", none, none⟩

theorem c2_same_day_duplicate_witness :
    (w2a ∈ [w2a, w2b] ∧ w2b ∈ [w2a, w2b] ∧
     w2a.account_id = w2b.account_id ∧ w2a.date = w2b.date ∧
     w2a.amount = w2b.amount ∧ w2a.transaction_id ≠ w2b.transaction_id) ∧
    (dupHit [w2a, w2b] w2a = true ∧ dupHit [w2a, w2b] w2b = true ∧
     "Duplicate transaction same day" ∈ reasons [w2a, w2b] w2a ∧
     annotate [w2a, w2b] w2a ∈ fraud_detection [w2a, w2b] ∧
     annotate [w2a, w2b] w2b ∈ fraud_detection [w2a, w2b]) :=
  ⟨⟨by decide, by decide, by decide, by decide, by decide, by decide⟩,
   let h := c2_same_day_duplicate [w2a, w2b] w2a w2b
     (by decide) (by decide) (by decide) (by decide) (by decide) (by decide)
   ⟨h.1, h.2.1, h.2.2.2.2.1, h.2.2.2.2.2.2.1, h.2.2.2.2.2.2.2⟩⟩

def c3txn : Txn :=
  ⟨some "T4", none, some "AC001", some 100, some "2024-03-03", some "", none⟩

/-- C3 counterexample: the record's `account_id` "AC001" has a
known-locations entry and its country, the empty string, is not in that
set, yet the foreign-location rule does not fire — the code's guard
`if txn.get("country")` treats the empty string as falsy and skips the
rule — so the record's score stays 0 and it is absent from the flagged
output, refuting the claim as stated. -/
theorem c3_foreign_location_cex :
    c3txn.account_id = some "AC001" ∧ knownLoc "AC001" = some ["New York"] ∧
    c3txn.country = some "" ∧ "" ∉ ["New York"] ∧
    foreignHit c3txn = false ∧
    "Foreign location detected" ∉ reasons [c3txn] c3txn ∧
    score [c3txn] c3txn = 0 ∧
    fraud_detection [c3txn] = [] := by
  have h1 : highAmountHit c3txn = false := by decide
  have h2 : dupHit [c3txn] c3txn = false := by decide
  have h3 : foreignHit c3txn = false := by decide
  have hs : score [c3txn] c3txn = 0 := by simp [score, h1, h2, h3]
  refine ⟨rfl, by decide, rfl, by decide, h3, by decide, hs, ?_⟩
  simp [fraud_detection, hs]

/-- C3 (amended): for every record whose country is present and
non-empty, whose `account_id` has a known-locations entry, and whose
country is not in that account's known set, the foreign-location rule
adds `+0.6` with reason "Foreign location detected" (and the record is
flagged); for every record whose `account_id` is missing or has no
known-locations entry, the rule never fires.  (A record whose country
is absent or the empty string is also exempt — the minimal change the
counterexample forces.) -/
theorem c3_foreign_location (txns : List Txn) (txn : Txn) :
    (∀ c a locs, txn.country = some c → c ≠ "" → txn.account_id = some a →
      knownLoc a = some locs → c ∉ locs →
      foreignHit txn = true ∧
      score txns txn =
        (if highAmountHit txn then 7/10 else 0) +
        (if dupHit txns txn then 8/10 else 0) + 6/10 ∧
      "Foreign location detected" ∈ reasons txns txn ∧
      (txn ∈ txns → annotate txns txn ∈ fraud_detection txns)) ∧
    ((∀ a, txn.account_id = some a → knownLoc a = none) →
      foreignHit txn = false ∧
      "Foreign location detected" ∉ reasons txns txn) := by
  constructor
  · intro c a locs hc hc0 ha hlocs hnotin
    have hfor : foreignHit txn = true := by
      simp [foreignHit, hc, ha, hc0, hlocs, hnotin]
    refine ⟨hfor, by simp [score, hfor], by simp [reasons, hfor], ?_⟩
    exact fun hmem =>
      annotate_mem_fraud_detection txns txn hmem (score_pos_of_foreign txns txn hfor)
  · intro hnone
    have hfor : foreignHit txn = false := by
      rcases hc : txn.country with _ | c
      · simp [foreignHit, hc]
      · rcases ha : txn.account_id with _ | a
        · simp [foreignHit, hc, ha]
        · simp [foreignHit, hc, ha, hnone a ha]
    refine ⟨hfor, ?_⟩
    cases h1 : highAmountHit txn <;> cases h2 : dupHit txns txn <;>
      simp [reasons, h1, h2, hfor]

def w3a : Txn :=
  ⟨some "T5", none, some "AC001", some 100, some "2024-01-01", some "Paris", none⟩

def w3b : Txn :=
  ⟨some "T6", none, some "AC999", some 100, some "2024-01-01", some "Paris", none⟩

theorem c3_foreign_location_witness :
    (w3a.country = some "Paris" ∧ "Paris" ≠ "" ∧ w3a.account_id = some "AC001" ∧
     knownLoc "AC001" = some ["New York"] ∧ "Paris" ∉ ["New York"] ∧
     w3a ∈ [w3a] ∧ (∀ a, w3b.account_id = some a → knownLoc a = none)) ∧
    (foreignHit w3a = true ∧
     "Foreign location detected" ∈ reasons [w3a] w3a ∧
     annotate [w3a] w3a ∈ fraud_detection [w3a] ∧
     foreignHit w3b = false ∧
     "Foreign location detected" ∉ reasons [w3b] w3b) :=
  ⟨⟨rfl, by decide, rfl, by decide, by decide, by decide,
    fun a ha => by
      have h : "AC999" = a := Option.some.inj ha
      subst h
      decide⟩,
   let h1 := (c3_foreign_location [w3a] w3a).1 "Paris" "AC001" ["New York"]
     rfl (by decide) rfl (by decide) (by decide)
   let h2 := (c3_foreign_location [w3b] w3b).2
     (fun a ha => by
       have h : "AC999" = a := Option.some.inj ha
       subst h
       decide)
   ⟨h1.1, h1.2.2.1, h1.2.2.2 (by decide), h2.1, h2.2⟩⟩

/-- The engine's one-pass conditional append is a filter-then-map. -/
theorem filterMap_if_eq {α β : Type} (p : α → Prop) [DecidablePred p] (g : α → β) :
    ∀ l : List α,
      (l.filterMap fun t => if p t then some (g t) else none) =
        (l.filter fun t => decide (p t)).map g
  | [] => rfl
  | x :: l => by
    by_cases h : p x <;>
      simp [List.filterMap_cons, List.filter_cons, h, filterMap_if_eq p g l]

/-- A record with positive score has at least one reason recorded. -/
theorem reasons_ne_nil_of_score_pos (txns : List Txn) (txn : Txn)
    (h : 0 < score txns txn) : reasons txns txn ≠ [] := by
  cases h1 : highAmountHit txn with
  | true => simp [reasons, h1]
  | false =>
    cases h2 : dupHit txns txn with
    | true => simp [reasons, h1, h2]
    | false =>
      cases h3 : foreignHit txn with
      | true => simp [reasons, h1, h2, h3]
      | false => rw [score, h1, h2, h3] at h; norm_num at h

/-- C4: the fraud engine's output is the order-preserving subsequence
of exactly those input records whose summed rule contributions are
strictly positive, each annotated with its uncapped summed risk score
and its reasons list, and every output record has positive score and a
non-empty reasons list. -/
theorem c4_output_subsequence (txns : List Txn) :
    fraud_detection txns =
      (txns.filter fun t => decide (0 < score txns t)).map
        (fun t =>
          { transaction_id := t.transaction_id
            account_id := t.account_id
            amount := t.amount
            date := t.date
            risk_score := score txns t
            reasons := reasons txns t }) ∧
    ∀ r ∈ fraud_detection txns, 0 < r.risk_score ∧ r.reasons ≠ [] := by
  constructor
  · rw [fraud_detection, filterMap_if_eq (fun t => 0 < score txns t) (annotate txns) txns]
    apply List.map_congr_left
    intro t _
    simp [annotate, pyRound2_score]
  · intro r hr
    rw [fraud_detection, List.mem_filterMap] at hr
    obtain ⟨t, ht, heq⟩ := hr
    by_cases hpos : 0 < score txns t
    · rw [if_pos hpos] at heq
      obtain rfl := Option.some_injective _ heq
      constructor
      · show 0 < pyRound2 (score txns t)
        rw [pyRound2_score]; exact hpos
      · exact reasons_ne_nil_of_score_pos txns t hpos
    · rw [if_neg hpos] at heq
      exact absurd heq (by simp)

theorem c4_output_subsequence_witness :
    (fraud_detection [w1txn] =
      (([w1txn].filter fun t => decide (0 < score [w1txn] t)).map
        (fun t =>
          { transaction_id := t.transaction_id
            account_id := t.account_id
            amount := t.amount
            date := t.date
            risk_score := score [w1txn] t
            reasons := reasons [w1txn] t }))) ∧
    (annotate [w1txn] w1txn ∈ fraud_detection [w1txn] ∧
     0 < (annotate [w1txn] w1txn).risk_score ∧
     (annotate [w1txn] w1txn).reasons ≠ []) :=
  have hmem : annotate [w1txn] w1txn ∈ fraud_detection [w1txn] :=
    annotate_mem_fraud_detection [w1txn] w1txn (by decide)
      (score_pos_of_high [w1txn] w1txn (by decide))
  ⟨(c4_output_subsequence [w1txn]).1,
   hmem, (c4_output_subsequence [w1txn]).2 _ hmem⟩

/-! ## Supervisor dedup lemmas -/

/-- The composite f-string is never empty (it contains underscores). -/
theorem compositeKey_ne_empty (tx : SupRec) : compositeKey tx ≠ "" := by
  intro h
  have h' := congrArg String.length h
  have hu : "_".length = 1 := rfl
  simp [compositeKey, String.length_append, hu] at h'

/-- The backfill never touches `account_id`, `date` or `amount`, so the
composite key is stable under it. -/
theorem compositeKey_backfillTx (tx : SupRec) (k : PyVal) :
    compositeKey (backfillTx tx k) = compositeKey tx := by
  unfold backfillTx; split <;> rfl

/-- A backfilled record carries a `transaction_id` key. -/
theorem backfillTx_isSome (tx : SupRec) (k : PyVal) :
    (backfillTx tx k).transaction_id.isSome := by
  by_cases h : tx.transaction_id = none
  · simp [backfillTx, h]
  · simp [backfillTx, h, Option.isSome_iff_ne_none]

/-- The backfill is the identity on a record that already has a
`transaction_id` key. -/
theorem backfillTx_of_isSome (tx : SupRec) (k : PyVal)
    (h : tx.transaction_id.isSome) : backfillTx tx k = tx := by
  unfold backfillTx
  rw [if_neg (Option.isSome_iff_ne_none.mp h)]

/-- Python `None or y` is `y`. -/
theorem pyOr_pnone (y : PyVal) : pyOr .pnone y = y := by
  simp [pyOr, truthy]

/-- Python `x or y` is `x` when `x` is truthy. -/
theorem pyOr_of_truthy {x : PyVal} (y : PyVal) (h : truthy x = true) :
    pyOr x y = x := by
  simp [pyOr, h]

/-- Python `x or y` is `y` when `x` is falsy. -/
theorem pyOr_of_not_truthy {x : PyVal} (y : PyVal) (h : truthy x = false) :
    pyOr x y = y := by
  simp [pyOr, h]

/-- The composite key is truthy as a Python string. -/
theorem truthy_compositeKey (tx : SupRec) :
    truthy (.pstr (compositeKey tx)) = true := by
  simp [truthy, compositeKey_ne_empty tx]

/-- The dedup key of a kept (possibly backfilled) record equals the key
under which it was kept: the supervisor's backfill never changes a
record's dedup key. -/
theorem dedupKey_backfillTx (tx : SupRec) :
    dedupKey (backfillTx tx (dedupKey tx)) = dedupKey tx := by
  rcases tx with ⟨tid, pid, a, d, m⟩
  rcases tid with _ | v
  · rcases pid with _ | p
    · have hK : dedupKey ⟨none, none, a, d, m⟩ =
          .pstr (compositeKey ⟨none, none, a, d, m⟩) := by
        simp [dedupKey, pyGetV, pyOr_pnone]
      have hbf : backfillTx ⟨none, none, a, d, m⟩ (dedupKey ⟨none, none, a, d, m⟩) =
          ⟨some (dedupKey ⟨none, none, a, d, m⟩), none, a, d, m⟩ := by
        simp [backfillTx]
      rw [hbf, hK]
      simp only [dedupKey, pyGetV, Option.getD_some]
      rw [pyOr_of_truthy _ (truthy_compositeKey _)]
    · by_cases hp : truthy p = true
      · have hK : dedupKey ⟨none, some p, a, d, m⟩ = p := by
          simp [dedupKey, pyGetV, pyOr_pnone, pyOr_of_truthy _ hp]
        have hbf : backfillTx ⟨none, some p, a, d, m⟩ (dedupKey ⟨none, some p, a, d, m⟩) =
            ⟨some p, some p, a, d, m⟩ := by
          simp [backfillTx]
        rw [hbf, hK]
        simp [dedupKey, pyGetV, pyOr_of_truthy _ hp]
      · rw [Bool.not_eq_true] at hp
        have hK : dedupKey ⟨none, some p, a, d, m⟩ =
            .pstr (compositeKey ⟨none, some p, a, d, m⟩) := by
          simp [dedupKey, pyGetV, pyOr_pnone, pyOr_of_not_truthy _ hp]
        have hbf : backfillTx ⟨none, some p, a, d, m⟩ (dedupKey ⟨none, some p, a, d, m⟩) =
            ⟨some p, some p, a, d, m⟩ := by
          simp [backfillTx]
        rw [hbf, hK]
        simp [dedupKey, pyGetV, pyOr_of_not_truthy _ hp]
        try rfl
  · simp [backfillTx, dedupKey]

/-- Every record kept by the dedup loop ends with a `transaction_id`
key present. -/
theorem dedupAux_isSome (l : List SupRec) :
    ∀ (seen : List PyVal), ∀ r ∈ dedupAux seen l, r.transaction_id.isSome := by
  induction l with
  | nil => intro seen r hr; simp [dedupAux] at hr
  | cons tx rest ih =>
    intro seen r hr
    rw [dedupAux] at hr
    by_cases hk : dedupKey tx ∈ seen
    · rw [if_pos hk] at hr
      exact ih seen r hr
    · rw [if_neg hk] at hr
      rcases List.mem_cons.mp hr with h | h
      · subst h; exact backfillTx_isSome tx (dedupKey tx)
      · exact ih (dedupKey tx :: seen) r h

/-- The keys of the dedup loop's output are pairwise distinct and
disjoint from the `seen` set it started with. -/
theorem dedupAux_keys (l : List SupRec) :
    ∀ (seen : List PyVal),
      ((dedupAux seen l).map dedupKey).Nodup ∧
      ∀ k ∈ (dedupAux seen l).map dedupKey, k ∉ seen := by
  induction l with
  | nil => intro seen; simp [dedupAux]
  | cons tx rest ih =>
    intro seen
    rw [dedupAux]
    by_cases hk : dedupKey tx ∈ seen
    · rw [if_pos hk]
      exact ih seen
    · rw [if_neg hk]
      obtain ⟨hnd, hout⟩ := ih (dedupKey tx :: seen)
      rw [List.map_cons, dedupKey_backfillTx tx]
      constructor
      · rw [List.nodup_cons]
        exact ⟨fun hmem => (hout _ hmem) (List.mem_cons_self _ _), hnd⟩
      · intro k hkmem
        rcases List.mem_cons.mp hkmem with h | h
        · subst h; exact hk
        · exact fun hs => (hout k h) (List.mem_cons_of_mem _ hs)

/-- On a list whose records all carry a `transaction_id` key and whose
keys are pairwise distinct and unseen, the dedup loop is the
identity. -/
theorem dedupAux_of_clean (l : List SupRec) :
    ∀ (seen : List PyVal),
      (∀ r ∈ l, r.transaction_id.isSome) →
      (l.map dedupKey).Nodup →
      (∀ k ∈ l.map dedupKey, k ∉ seen) →
      dedupAux seen l = l := by
  induction l with
  | nil => intro seen _ _ _; rfl
  | cons tx rest ih =>
    intro seen hsome hnd hout
    rw [dedupAux]
    have hk : dedupKey tx ∉ seen :=
      hout (dedupKey tx) (by simp)
    rw [if_neg hk,
      backfillTx_of_isSome tx (dedupKey tx) (hsome tx (List.mem_cons_self _ _))]
    rw [List.map_cons, List.nodup_cons] at hnd
    refine congrArg (tx :: ·) (ih (dedupKey tx :: seen)
      (fun r hr => hsome r (List.mem_cons_of_mem _ hr)) hnd.2 ?_)
    intro k hkm
    rw [List.mem_cons]
    push_neg
    exact ⟨fun he => hnd.1 (he ▸ hkm), hout k (List.mem_cons_of_mem _ hkm)⟩

/-- C5: the supervisor's deduplication pass is idempotent — running it
on its own output changes nothing.  (The key of a kept record is stable
under the backfill, every kept record carries a `transaction_id` key,
and the kept keys are pairwise distinct, so a second pass keeps
everything unchanged.) -/
theorem c5_dedup_idempotent (X : List SupRec) :
    supervisorDedup (supervisorDedup X) = supervisorDedup X := by
  unfold supervisorDedup
  exact dedupAux_of_clean (dedupAux [] X) []
    (dedupAux_isSome X [])
    (dedupAux_keys X []).1
    (fun k _ => List.not_mem_nil k)

/-! ## Risk aggregator lemmas -/

theorem reportKeys_nil : reportKeys [] = [] := rfl

theorem reportKeys_cons (e : Option String × ℕ × List FlaggedRec) (r : Report) :
    reportKeys (e :: r) = e.1 :: reportKeys r := rfl

theorem acctFilter_cons (a : Option String) (t : FlaggedRec) (l : List FlaggedRec) :
    acctFilter a (t :: l) =
      if t.account_id = a then t :: acctFilter a l else acctFilter a l := by
  simp [acctFilter, List.filter_cons]

theorem acctFilter_cons_self {a : Option String} {t : FlaggedRec}
    (h : t.account_id = a) (l : List FlaggedRec) :
    acctFilter a (t :: l) = t :: acctFilter a l := by
  rw [acctFilter_cons, if_pos h]

theorem acctFilter_cons_ne {a : Option String} {t : FlaggedRec}
    (h : ¬t.account_id = a) (l : List FlaggedRec) :
    acctFilter a (t :: l) = acctFilter a l := by
  rw [acctFilter_cons, if_neg h]

/-- A fresh account's entry is appended at the end of the dict. -/
theorem updateReport_not_mem (txn : FlaggedRec) :
    ∀ (acc : Report), txn.account_id ∉ reportKeys acc →
      updateReport txn acc = acc ++ [(txn.account_id, 1, [txn])]
  | [], _ => rfl
  | e :: rest, h => by
    have he : ¬e.1 = txn.account_id := by
      intro hh
      exact h (by rw [reportKeys_cons, hh]; exact List.mem_cons_self _ _)
    rw [reportKeys_cons] at h
    simp only [updateReport, if_neg he]
    rw [updateReport_not_mem txn rest (fun hm => h (List.mem_cons_of_mem _ hm))]
    rfl

/-- Updating the dict leaves the key column unchanged for a known
account and appends the new key for a fresh one. -/
theorem reportKeys_updateReport (txn : FlaggedRec) :
    ∀ (acc : Report), reportKeys (updateReport txn acc) =
      if txn.account_id ∈ reportKeys acc then reportKeys acc
      else reportKeys acc ++ [txn.account_id]
  | [] => by simp [updateReport, reportKeys]
  | e :: rest => by
    by_cases he : e.1 = txn.account_id
    · have hm : txn.account_id ∈ reportKeys (e :: rest) := by
        rw [reportKeys_cons, he]; exact List.mem_cons_self _ _
      simp only [updateReport, if_pos he]
      rw [if_pos hm, reportKeys_cons, reportKeys_cons]
    · have ih := reportKeys_updateReport txn rest
      simp only [updateReport, if_neg he]
      rw [reportKeys_cons, reportKeys_cons, ih]
      by_cases hm : txn.account_id ∈ reportKeys rest
      · rw [if_pos hm, if_pos (List.mem_cons_of_mem _ hm)]
      · have hm2 : txn.account_id ∉ e.1 :: reportKeys rest := by
          intro hx
          rcases List.mem_cons.mp hx with hx | hx
          · exact he hx.symm
          · exact hm hx
        rw [if_neg hm, if_neg hm2, List.cons_append]

/-- The function `firstSeenAccounts` only consults `seen` through membership. -/
theorem firstSeenAccounts_congr :
    ∀ (l : List FlaggedRec) (s s' : List (Option String)),
      (∀ k, k ∈ s ↔ k ∈ s') → firstSeenAccounts s l = firstSeenAccounts s' l
  | [], _, _, _ => rfl
  | t :: rest, s, s', h => by
    by_cases hm : t.account_id ∈ s
    · simp only [firstSeenAccounts]
      rw [if_pos hm, if_pos ((h t.account_id).mp hm)]
      exact firstSeenAccounts_congr rest s s' h
    · simp only [firstSeenAccounts]
      rw [if_neg hm, if_neg (fun hx => hm ((h t.account_id).mpr hx))]
      exact congrArg (t.account_id :: ·)
        (firstSeenAccounts_congr rest _ _ (fun k => by simp [List.mem_cons, h k]))

/-- A first-seen account is not among the already-seen keys. -/
theorem firstSeenAccounts_not_mem :
    ∀ (l : List FlaggedRec) (s : List (Option String)) (a : Option String),
      a ∈ firstSeenAccounts s l → a ∉ s
  | [], s, a, h => by simp [firstSeenAccounts] at h
  | t :: rest, s, a, h => by
    by_cases hm : t.account_id ∈ s
    · rw [firstSeenAccounts, if_pos hm] at h
      exact firstSeenAccounts_not_mem rest s a h
    · rw [firstSeenAccounts, if_neg hm] at h
      rcases List.mem_cons.mp h with rfl | h'
      · exact hm
      · have h2 := firstSeenAccounts_not_mem rest _ a h'
        exact fun hs => h2 (List.mem_cons_of_mem _ hs)

/-- Folding a known account's record into the dict and then absorbing
`rest` is absorbing `txn :: rest` directly. -/
theorem map_mergeEntry_updateReport (txn : FlaggedRec) (rest : List FlaggedRec) :
    ∀ (acc : Report), (reportKeys acc).Nodup → txn.account_id ∈ reportKeys acc →
      (updateReport txn acc).map (mergeEntry rest) =
        acc.map (mergeEntry (txn :: rest))
  | [], _, hm => by simp [reportKeys] at hm
  | e :: acc', hnd, hm => by
    rw [reportKeys_cons, List.nodup_cons] at hnd
    by_cases he : e.1 = txn.account_id
    · simp only [updateReport, if_pos he]
      rw [List.map_cons, List.map_cons]
      congr 1
      · simp [mergeEntry, acctFilter_cons_self he.symm, List.append_assoc]
        omega
      · apply List.map_congr_left
        intro e' he'
        have hne : ¬txn.account_id = e'.1 := by
          intro hx
          exact hnd.1 (by
            rw [he, hx]
            exact List.mem_map_of_mem (fun e => e.1) he')
        simp [mergeEntry, acctFilter_cons_ne hne]
    · have hm' : txn.account_id ∈ reportKeys acc' := by
        rcases List.mem_cons.mp (by rwa [reportKeys_cons] at hm) with hx | hx
        · exact absurd hx.symm he
        · exact hx
      simp only [updateReport, if_neg he]
      rw [List.map_cons, List.map_cons]
      congr 1
      · have hne : ¬txn.account_id = e.1 := fun hx => he hx.symm
        simp [mergeEntry, acctFilter_cons_ne hne]
      · exact map_mergeEntry_updateReport txn rest acc' hnd.2 hm'

/-- Characterization of the aggregator's fold: existing entries absorb
their matching records, fresh accounts are appended in first-seen
order. -/
theorem foldl_updateReport :
    ∀ (l : List FlaggedRec) (acc : Report), (reportKeys acc).Nodup →
      l.foldl (fun rep txn => updateReport txn rep) acc =
        acc.map (mergeEntry l) ++
          (firstSeenAccounts (reportKeys acc) l).map (groupEntry l)
  | [], acc, _ => by
    simp only [List.foldl_nil, firstSeenAccounts, List.map_nil, List.append_nil]
    have h : ∀ e ∈ acc, mergeEntry [] e = id e := fun e _ => by
      simp [mergeEntry, acctFilter]
    rw [List.map_congr_left h, List.map_id]
  | t :: rest, acc, hnd => by
    rw [List.foldl_cons]
    by_cases hm : t.account_id ∈ reportKeys acc
    · have hkeys : reportKeys (updateReport t acc) = reportKeys acc := by
        rw [reportKeys_updateReport t acc, if_pos hm]
      have hnd' : (reportKeys (updateReport t acc)).Nodup := by
        rw [hkeys]; exact hnd
      rw [foldl_updateReport rest (updateReport t acc) hnd', hkeys,
        map_mergeEntry_updateReport t rest acc hnd hm]
      congr 1
      have hfsa : firstSeenAccounts (reportKeys acc) (t :: rest) =
          firstSeenAccounts (reportKeys acc) rest := by
        simp only [firstSeenAccounts]; rw [if_pos hm]
      rw [hfsa]
      apply List.map_congr_left
      intro a ha
      have hna : a ∉ reportKeys acc := firstSeenAccounts_not_mem rest _ a ha
      have hne : ¬t.account_id = a := fun hx => hna (hx ▸ hm)
      simp [groupEntry, acctFilter_cons_ne hne]
    · have hup := updateReport_not_mem t acc hm
      have hkeys : reportKeys (updateReport t acc) =
          reportKeys acc ++ [t.account_id] := by
        rw [reportKeys_updateReport t acc, if_neg hm]
      have hnd' : (reportKeys (updateReport t acc)).Nodup := by
        rw [hkeys]
        simp [List.nodup_append, hnd, hm]
      rw [foldl_updateReport rest (updateReport t acc) hnd', hkeys, hup,
        List.map_append]
      have hfsa : firstSeenAccounts (reportKeys acc ++ [t.account_id]) rest =
          firstSeenAccounts (t.account_id :: reportKeys acc) rest :=
        firstSeenAccounts_congr rest _ _
          (fun k => by simp [List.mem_append, List.mem_cons, Or.comm])
      rw [hfsa]
      have hrhs : firstSeenAccounts (reportKeys acc) (t :: rest) =
          t.account_id :: firstSeenAccounts (t.account_id :: reportKeys acc) rest := by
        simp only [firstSeenAccounts]; rw [if_neg hm]
      rw [hrhs]
      simp only [List.map_cons, List.map_nil, List.append_assoc,
        List.singleton_append]
      congr 1
      · apply List.map_congr_left
        intro e hemem
        have hne : ¬t.account_id = e.1 := by
          intro hx
          exact hm (hx ▸ List.mem_map_of_mem (fun e => e.1) hemem)
        simp [mergeEntry, acctFilter_cons_ne hne]
      · congr 1
        · simp [mergeEntry, groupEntry, acctFilter_cons_self rfl]
          omega
        · apply List.map_congr_left
          intro a ha
          have hna := firstSeenAccounts_not_mem rest _ a ha
          have hne : ¬t.account_id = a := by
            intro hx
            exact hna (hx ▸ List.mem_cons_self _ _)
          simp [groupEntry, acctFilter_cons_ne hne]

/-- C6: for every flagged-record sequence, the Risk Aggregator emits
one summary per distinct `account_id` in first-seen order, with
`total_flagged` the count of that account's flagged records and
`transactions` exactly that account's flagged records in original input
order — its output coincides with the specification-shaped
`riskSummariesSpec`. -/
theorem c6_risk_aggregator (fraud : List FlaggedRec) :
    risk_analysis fraud = riskSummariesSpec fraud := by
  unfold risk_analysis riskSummariesSpec
  rw [foldl_updateReport fraud [] (by simp [reportKeys])]
  simp only [List.map_nil, List.nil_append, List.map_map, reportKeys_nil]
  apply List.map_congr_left
  intro a _
  simp [groupEntry, Function.comp, acctFilter]

/-! ## Flatten lemmas -/

/-- Unfolding `flattenAnalysis` when the loop guard holds. -/
theorem flattenAnalysis_of_some {a v : PyData} (h : dataField a = some v) :
    flattenAnalysis a = flattenAnalysis v := by
  rw [flattenAnalysis.eq_def]
  split
  · rename_i v' heq
    rw [h] at heq
    rw [Option.some.inj heq]
  · rename_i heq
    rw [h] at heq
    exact absurd heq (by simp)

/-- Unfolding `flattenAnalysis` when the loop guard fails. -/
theorem flattenAnalysis_of_none {a : PyData} (h : dataField a = none) :
    flattenAnalysis a = a := by
  rw [flattenAnalysis.eq_def]
  split
  · rename_i v' heq
    rw [h] at heq
    exact absurd heq (by simp)
  · rfl

/-- The flatten loop's result never carries a `data` key. -/
theorem dataField_flattenAnalysis (a : PyData) :
    dataField (flattenAnalysis a) = none := by
  induction a using flattenAnalysis.induct with
  | case1 a v h ih => rw [flattenAnalysis_of_some h]; exact ih
  | case2 a h => rw [flattenAnalysis_of_none h]; exact h

/-- C7: the supervisor's flatten step terminates on every analysis
value of finite nesting depth — `flattenAnalysis` is a total function,
defined by well-founded recursion on the size of the value — and its
result is no longer a mapping containing the key `data` (equivalently,
the while-loop guard fails on it, so flattening again changes
nothing). -/
theorem c7_flatten_terminates (a : PyData) :
    dataField (flattenAnalysis a) = none ∧
    flattenAnalysis (flattenAnalysis a) = flattenAnalysis a :=
  ⟨dataField_flattenAnalysis a,
   flattenAnalysis_of_none (dataField_flattenAnalysis a)⟩

/-! ## Ingestion lemmas -/

/-- The ingestion fold, started from any accumulator, appends exactly
the successful sources' rows in source order. -/
theorem foldl_ingestStep (lc fa qd : String → SourceResult) :
    ∀ (sources : List String) (all : List Txn),
      sources.foldl (ingestStep lc fa qd) all =
        all ++
          ((sources.filter fun s =>
              (sourceResponse lc fa qd s).error.isNone).map
            (fun s => (sourceResponse lc fa qd s).data.getD [])).flatten
  | [], all => by simp
  | s :: rest, all => by
    rw [List.foldl_cons, List.filter_cons]
    cases herr : (sourceResponse lc fa qd s).error with
    | none =>
      have hstep : ingestStep lc fa qd all s =
          all ++ (sourceResponse lc fa qd s).data.getD [] := by
        simp [ingestStep, herr]
      rw [hstep, foldl_ingestStep lc fa qd rest]
      simp [herr, List.append_assoc]
    | some e =>
      have hstep : ingestStep lc fa qd all s = all := by
        simp [ingestStep, herr]
      rw [hstep, foldl_ingestStep lc fa qd rest]
      simp [herr]

/-- C8: ingestion is non-fatal under failing sources — a source whose
response carries an `error` key contributes nothing, and the final
`transaction_data` rows are exactly the successful sources' rows
concatenated in source-list order. -/
theorem c8_ingestion_skips_failures (lc fa qd : String → SourceResult)
    (sources : List String) :
    ingestion_agent lc fa qd sources =
      ((sources.filter fun s =>
          (sourceResponse lc fa qd s).error.isNone).map
        (fun s => (sourceResponse lc fa qd s).data.getD [])).flatten := by
  rw [ingestion_agent, foldl_ingestStep lc fa qd sources, List.nil_append]

/-! ## Error-sentinel behavior -/

/-- C9 counterexample: the fraud detection node performs no sentinel
check — on a `transaction_data` channel holding only the
ComputationError sentinel `{error: ...}` it reads
`.get("data", [])`, obtains the empty list, and emits the ordinary
empty flagged list: its output is identical to the output on an
ordinary empty dataset and the sentinel is dropped, not forwarded,
refuting the claim that every downstream stage forwards the sentinel
unchanged. -/
theorem c9_sentinel_cex :
    fraud_detection_agent ⟨none, some "missing required field"⟩ =
      fraud_detection_agent ⟨some [], none⟩ ∧
    fraud_detection_agent ⟨none, some "missing required field"⟩ = [] :=
  ⟨rfl, rfl⟩

/-- C9 (amended): every analysis/scoring tool guards with
`if "error" in data: return data` and forwards the sentinel unchanged
without computing; the fraud detection node, by contrast, performs no
such check — on a sentinel-only input it produces the ordinary empty
output rather than forwarding the sentinel. -/
theorem c9_sentinel_guard :
    (∀ (α : Type) (body : ToolInput → ToolOutput α) (d : ToolInput),
      d.error.isSome = true → toolGuard body d = .forwarded d) ∧
    (∀ d : ToolInput, d.error.isSome = true →
      statistical_summary d = .forwarded d) ∧
    (∀ td : TransactionData, td.error.isSome = true → td.data = none →
      fraud_detection_agent td = []) := by
  refine ⟨?_, ?_, ?_⟩
  · intro α body d h
    simp [toolGuard, h]
  · intro d h
    simp [statistical_summary, toolGuard, h]
  · intro td h hd
    simp [fraud_detection_agent, hd, fraud_detection]

theorem c9_sentinel_guard_witness :
    ((⟨some "bad input", none⟩ : ToolInput).error.isSome = true ∧
     toolGuard statisticalBody ⟨some "bad input", none⟩ =
       .forwarded ⟨some "bad input", none⟩ ∧
     statistical_summary ⟨some "bad input", none⟩ =
       .forwarded ⟨some "bad input", none⟩) ∧
    ((⟨none, some "bad input"⟩ : TransactionData).error.isSome = true ∧
     fraud_detection_agent ⟨none, some "bad input"⟩ = []) :=
  ⟨⟨rfl,
    c9_sentinel_guard.1 AmountStats statisticalBody ⟨some "bad input", none⟩ rfl,
    c9_sentinel_guard.2.1 ⟨some "bad input", none⟩ rfl⟩,
   ⟨rfl, c9_sentinel_guard.2.2 ⟨none, some "bad input"⟩ rfl rfl⟩⟩

/-! ## Flagged-record shape -/

/-- C10: every flagged record emitted by the fraud detection stage is a
dict with exactly the six keys `transaction_id`, `account_id`,
`amount`, `date`, `risk_score`, `reasons` (in that order); the input's
other fields — `payment_id`, `country`, `ip_address` — are absent; and
in the supervisor's dedup pass such a record's key never falls back to
`payment_id` (it is the stored `transaction_id` when truthy, else the
composite key) and the backfill never fires on it. -/
theorem c10_flagged_shape (txns : List Txn) (r : FlaggedRec)
    (h : r ∈ fraud_detection txns) :
    (flagDict r).map Prod.fst =
      ["transaction_id", "account_id", "amount", "date", "risk_score",
       "reasons"] ∧
    lookupEntry "payment_id" (flagDict r) = none ∧
    lookupEntry "country" (flagDict r) = none ∧
    lookupEntry "ip_address" (flagDict r) = none ∧
    (flaggedToSup r).payment_id = none ∧
    dedupKey (flaggedToSup r) =
      (if truthy (optStrVal r.transaction_id) = true
       then optStrVal r.transaction_id
       else .pstr (compositeKey (flaggedToSup r))) ∧
    backfillTx (flaggedToSup r) (dedupKey (flaggedToSup r)) =
      flaggedToSup r := by
  refine ⟨rfl, rfl, rfl, rfl, rfl, ?_, backfillTx_of_isSome _ _ rfl⟩
  by_cases ht : truthy (optStrVal r.transaction_id) = true
  · rw [if_pos ht]
    show pyOr (pyGetV (some (optStrVal r.transaction_id))) _ = _
    rw [show pyGetV (some (optStrVal r.transaction_id)) =
        optStrVal r.transaction_id from rfl]
    exact pyOr_of_truthy _ ht
  · rw [Bool.not_eq_true] at ht
    rw [if_neg (by rw [ht]; exact Bool.false_ne_true)]
    show pyOr (pyGetV (some (optStrVal r.transaction_id)))
      (pyOr (pyGetV none) (.pstr (compositeKey (flaggedToSup r)))) = _
    rw [show pyGetV (some (optStrVal r.transaction_id)) =
        optStrVal r.transaction_id from rfl,
      pyOr_of_not_truthy _ ht]
    show pyOr .pnone _ = _
    exact pyOr_pnone _

theorem c10_flagged_shape_witness :
    (annotate [w1txn] w1txn ∈ fraud_detection [w1txn]) ∧
    ((flagDict (annotate [w1txn] w1txn)).map Prod.fst =
      ["transaction_id", "account_id", "amount", "date", "risk_score",
       "reasons"] ∧
     lookupEntry "payment_id" (flagDict (annotate [w1txn] w1txn)) = none ∧
     (flaggedToSup (annotate [w1txn] w1txn)).payment_id = none) :=
  have hmem : annotate [w1txn] w1txn ∈ fraud_detection [w1txn] :=
    annotate_mem_fraud_detection [w1txn] w1txn (by decide)
      (score_pos_of_high [w1txn] w1txn (by decide))
  ⟨hmem,
   (c10_flagged_shape [w1txn] (annotate [w1txn] w1txn) hmem).1,
   (c10_flagged_shape [w1txn] (annotate [w1txn] w1txn) hmem).2.1,
   (c10_flagged_shape [w1txn] (annotate [w1txn] w1txn) hmem).2.2.2.2.1⟩

end FraudMAS
